import Mathlib

/-!
Verification of the Storage Categorization & Migration Engine of the
shadow-collector repository: a shallow embedding in Lean 4 of the path
grammar (path-validator), path calculator, category mapper, file
processor, stats tracker and the per-pair migration steps, with theorems
checking the specification's claims against these definitions.

Strings are modelled by Lean `String` (a list of Unicode scalar values,
matching JavaScript strings up to surrogate pairing, which never arises
in the inputs considered).  JavaScript `Map`/`Set` insertion-order
semantics are modelled by association lists / append-once lists.
A thrown exception is modelled by `Option`/`none` where a function can
throw outside a `try` block.
-/

/-- ASCII lowercase of one character, as `String.prototype.toLowerCase`
acts on the ASCII range (all inputs compared case-insensitively in the
source are ASCII file extensions and storage-type names). -/
def asciiLowerChar (c : Char) : Char :=
  if 'A' ≤ c ∧ c ≤ 'Z' then Char.ofNat (c.toNat + 32) else c

/-- ASCII lowercase of a string. -/
def asciiLower (s : String) : String := ⟨s.data.map asciiLowerChar⟩

/-- JS `String.prototype.startsWith`. -/
def strStartsWith (s pat : String) : Bool := List.isPrefixOf pat.data s.data

/-- JS `String.prototype.endsWith`. -/
def strEndsWith (s pat : String) : Bool := List.isSuffixOf pat.data s.data

/-- Whether `pat` occurs as a contiguous sublist of `l`. -/
def listHasSub (pat : List Char) : List Char → Bool
  | [] => List.isPrefixOf pat []
  | c :: rest => List.isPrefixOf pat (c :: rest) || listHasSub pat rest

/-- JS `String.prototype.includes`. -/
def strIncludes (s pat : String) : Bool := listHasSub pat.data s.data

/-- JS `String.prototype.split("/")` on the underlying character list. -/
def splitOnSlash : List Char → List (List Char)
  | [] => [[]]
  | c :: rest =>
    if c = '/' then [] :: splitOnSlash rest
    else
      match splitOnSlash rest with
      | [] => [[c]]
      | h :: t => (c :: h) :: t

/-- The `/`-separated segments of a path (JS `path.split('/')`). -/
def pathSegs (s : String) : List String := (splitOnSlash s.data).map (fun l => ⟨l⟩)

/-- Whether a string contains no `/` character. -/
def noSlash (s : String) : Bool := s.data.all (fun c => c != '/')

/-! ## path-validator.ts -/

/-- The five storage types (`STORAGE_TYPES` in path-validator.ts). -/
def STORAGE_TYPES : List String :=
  ["detection", "multimodal", "text-qa", "classify", "qa-pair"]

/-- The five path violation classes (`PathViolationType`). -/
inductive PathViolationType
  | valid
  | oldTaskid
  | oldFlat
  | urlEncodedRoot
  | unknown
deriving DecidableEq, Repr

/-- Whether a string is exactly `\d{4}-\d{2}` (the `YYYY-MM` segment of
`VALID_PATH_REGEX`). -/
def isYYYYMM (s : String) : Bool :=
  match s.data with
  | [a, b, c, d, e, f, g] =>
    a.isDigit && b.isDigit && c.isDigit && d.isDigit && e = '-' && f.isDigit && g.isDigit
  | _ => false

/-- Whether a string is exactly `\d{4}-\d{2}-\d{2}` (the `YYYY-MM-DD`
segment of the legacy-path regexes). -/
def isYYYYMMDD (s : String) : Bool :=
  match s.data with
  | [a, b, c, d, e, f, g, h, i, j] =>
    a.isDigit && b.isDigit && c.isDigit && d.isDigit && e = '-' &&
    f.isDigit && g.isDigit && h = '-' && i.isDigit && j.isDigit
  | _ => false

/-- Whether a string is exactly `[a-f0-9]{32}` (the task-id segment of
`OLD_TASKID_REGEX`). -/
def isHex32 (s : String) : Bool :=
  s.data.length == 32 && s.data.all (fun c => c.isDigit || ('a' ≤ c && c ≤ 'f'))

/-- `VALID_PATH_REGEX.test(path)`:
`^(type)\/\d{4}-\d{2}\/[^\/]+\/[^\/]+\/[^\/]+$` where `type` is one of
the five storage types.  An anchored regex over `/`-separated segments is
equivalent to this segment test. -/
def validPathTest (path : String) : Bool :=
  match pathSegs path with
  | [t, d, c1, c2, f] =>
    STORAGE_TYPES.contains t && isYYYYMM d && c1 != "" && c2 != "" && f != ""
  | _ => false

/-- `OLD_TASKID_REGEX.test(path)`:
`^(type)\/\d{4}-\d{2}-\d{2}\/[a-f0-9]{32}\/[^\/]+$`. -/
def oldTaskidTest (path : String) : Bool :=
  match pathSegs path with
  | [t, d, h, f] => STORAGE_TYPES.contains t && isYYYYMMDD d && isHex32 h && f != ""
  | _ => false

/-- The extension alternation of `OLD_FLAT_REGEX`. -/
def OLD_FLAT_EXTS : List String := ["jpg", "jpeg", "png", "gif", "webp", "bmp", "json"]

/-- The filename part `[^\/]+\.(jpg|jpeg|png|gif|webp|bmp|json)$` of
`OLD_FLAT_REGEX`, under the regex's `i` flag: the lowered filename ends
in `.ext` and has at least one character before that suffix. -/
def oldFlatFilenameTest (f : String) : Bool :=
  OLD_FLAT_EXTS.any (fun e =>
    strEndsWith (asciiLower f) ("." ++ e) && e.length + 2 ≤ f.length)

/-- `OLD_FLAT_REGEX.test(path)`:
`^(type)\/\d{4}-\d{2}-\d{2}\/[^\/]+\.(ext)$/i` — the `i` flag applies to
the type alternation and the extension alternation (digits and the
separators are unaffected by case folding). -/
def oldFlatTest (path : String) : Bool :=
  match pathSegs path with
  | [t, d, f] => STORAGE_TYPES.contains (asciiLower t) && isYYYYMMDD d && oldFlatFilenameTest f
  | _ => false

/-- `isValidStoragePath`: empty string is rejected, otherwise the
canonical 5-segment regex decides. -/
def isValidStoragePath (path : String) : Bool :=
  if path = "" then false else validPathTest path

/-! ### Model of JavaScript `decodeURIComponent`

`decodeURIComponent` throws a `URIError` on a malformed `%`-escape (no two
hex digits after `%`) and on escaped byte sequences that are not valid
UTF-8.  A thrown error is modelled as `none`.  The decode is in two
phases: tokenize the string into raw characters and escaped bytes, then
strictly UTF-8-decode runs of escaped bytes. -/

/-- One token of a URI-encoded string: a raw character or a `%XX` byte. -/
inductive URITok
  | rawc (c : Char)
  | byte (b : Nat)
deriving DecidableEq, Repr

/-- Value of one hex digit, or `none`. -/
def hexVal (c : Char) : Option Nat :=
  if '0' ≤ c ∧ c ≤ '9' then some (c.toNat - 48)
  else if 'a' ≤ c ∧ c ≤ 'f' then some (c.toNat - 87)
  else if 'A' ≤ c ∧ c ≤ 'F' then some (c.toNat - 55)
  else none

/-- Tokenize a URI-encoded character list; `none` on a `%` not followed
by two hex digits. -/
def uriTokenize : List Char → Option (List URITok)
  | [] => some []
  | '%' :: c1 :: c2 :: rest =>
    match hexVal c1, hexVal c2 with
    | some h1, some h2 => (uriTokenize rest).map (URITok.byte (16 * h1 + h2) :: ·)
    | _, _ => none
  | '%' :: _ => none
  | c :: rest => (uriTokenize rest).map (URITok.rawc c :: ·)

/-- Whether a byte is a UTF-8 continuation byte. -/
def isCont (b : Nat) : Bool := 128 ≤ b && b ≤ 191

/-- Decode the token list: raw characters pass through; escaped bytes
must form valid (shortest-form, non-surrogate) UTF-8 sequences made
entirely of escaped bytes, as ECMA-262 requires. -/
def uriDecodeToks : List URITok → Option (List Char)
  | [] => some []
  | .rawc c :: rest => (uriDecodeToks rest).map (c :: ·)
  | .byte b :: rest =>
    if b < 128 then (uriDecodeToks rest).map (Char.ofNat b :: ·)
    else if 194 ≤ b && b ≤ 223 then
      match rest with
      | .byte b1 :: rest2 =>
        if isCont b1 then
          (uriDecodeToks rest2).map (Char.ofNat ((b - 192) * 64 + (b1 - 128)) :: ·)
        else none
      | _ => none
    else if 224 ≤ b && b ≤ 239 then
      match rest with
      | .byte b1 :: .byte b2 :: rest2 =>
        if isCont b1 && isCont b2 && (b != 224 || 160 ≤ b1) && (b != 237 || b1 ≤ 159) then
          (uriDecodeToks rest2).map
            (Char.ofNat ((b - 224) * 4096 + (b1 - 128) * 64 + (b2 - 128)) :: ·)
        else none
      | _ => none
    else if 240 ≤ b && b ≤ 244 then
      match rest with
      | .byte b1 :: .byte b2 :: .byte b3 :: rest2 =>
        if isCont b1 && isCont b2 && isCont b3 && (b != 240 || 144 ≤ b1) && (b != 244 || b1 ≤ 143) then
          (uriDecodeToks rest2).map
            (Char.ofNat ((b - 240) * 262144 + (b1 - 128) * 4096 + (b2 - 128) * 64 + (b3 - 128)) :: ·)
        else none
      | _ => none
    else none

/-- Model of `decodeURIComponent`; `none` models a thrown `URIError`. -/
def decodeURIComponent (s : String) : Option String :=
  match uriTokenize s.data with
  | none => none
  | some toks => (uriDecodeToks toks).map (fun cs => ⟨cs⟩)

/-- The literal `URL_ENCODED_SEPARATOR` constant. -/
def URL_ENCODED_SEPARATOR : String := "%2F"

/-- `isUrlEncodedRootPath(key)`: false when the key is empty or does not
contain `%2F`; otherwise decode the key and test
`^(detection|multimodal|text-qa|classify|qa-pair)\//` on the decoded
string.  `none` models the `URIError` that `decodeURIComponent` throws
on a malformed escape. -/
def isUrlEncodedRootPath (key : String) : Option Bool :=
  if key = "" || !(strIncludes key URL_ENCODED_SEPARATOR) then some false
  else (decodeURIComponent key).map
    (fun d => STORAGE_TYPES.any (fun t => strStartsWith d (t ++ "/")))

/-- `decodeRootPath(key)`: a bare `decodeURIComponent`. -/
def decodeRootPath (key : String) : Option String := decodeURIComponent key

/-- `getPathViolationType(path)`: empty → `unknown`; then the URL-encoded
root test (which can throw, modelled by `none`), then the valid, old
task-id and old flat regexes in that order. -/
def getPathViolationType (path : String) : Option PathViolationType :=
  if path = "" then some .unknown
  else
    match isUrlEncodedRootPath path with
    | none => none
    | some true => some .urlEncodedRoot
    | some false =>
      if validPathTest path then some .valid
      else if oldTaskidTest path then some .oldTaskid
      else if oldFlatTest path then some .oldFlat
      else some .unknown

/-! ## category-mapper.ts types (shared with migration/types.ts) -/

/-- `CategoryInfo`: a two-level classification; `category2 = ""` denotes
a single-level directory. -/
structure CategoryInfo where
  category1 : String
  category2 : String
deriving DecidableEq, Repr

/-! ## path-calculator.ts -/

/-- `extractTypeFromPath`: empty input gives `""`; one optional leading
`/` is stripped; the characters before the first `/` (the whole string
when it has no `/`) are returned. -/
def extractTypeFromPath (path : String) : String :=
  if path = "" then ""
  else
    let clean : List Char := if strStartsWith path "/" then path.data.tail else path.data
    ⟨clean.takeWhile (fun c => c != '/')⟩

/-- The pattern `(\d{4}-\d{2})-\d{2}` tried at the head of a character
list; on success the captured `YYYY-MM` group. -/
def matchFullDateAt (cs : List Char) : Option String :=
  match cs with
  | a :: b :: c :: d :: '-' :: e :: f :: '-' :: g :: h :: _ =>
    if a.isDigit && b.isDigit && c.isDigit && d.isDigit &&
       e.isDigit && f.isDigit && g.isDigit && h.isDigit then
      some ⟨[a, b, c, d, '-', e, f]⟩
    else none
  | _ => none

/-- The pattern `(\d{4}-\d{2})` tried at the head of a character list. -/
def matchMonthAt (cs : List Char) : Option String :=
  match cs with
  | a :: b :: c :: d :: '-' :: e :: f :: _ =>
    if a.isDigit && b.isDigit && c.isDigit && d.isDigit && e.isDigit && f.isDigit then
      some ⟨[a, b, c, d, '-', e, f]⟩
    else none
  | _ => none

/-- Leftmost match of an anchored pattern, as a JS regex search finds it. -/
def firstMatch (f : List Char → Option String) : List Char → Option String
  | [] => none
  | c :: rest =>
    match f (c :: rest) with
    | some r => some r
    | none => firstMatch f rest

/-- `extractDateFromPath`: first `YYYY-MM-DD` match reduced to `YYYY-MM`,
else first bare `YYYY-MM` match, else the current month (`nowMonth`
parameterizes `new Date()`). -/
def extractDateFromPath (nowMonth : String) (path : String) : String :=
  match firstMatch matchFullDateAt path.data with
  | some m => m
  | none =>
    match firstMatch matchMonthAt path.data with
    | some m => m
    | none => nowMonth

/-- `calculateNewPath(oldPath, dateMonth, category)`:
`{type}/{dateMonth}/{cat1}/{cat2}/{filename}` with `未分类` substituted
for an empty category component (`category1 || '未分类'`). -/
def calculateNewPath (oldPath dateMonth : String) (category : CategoryInfo) : String :=
  let type := extractTypeFromPath oldPath
  let filename := (pathSegs oldPath).getLastD ""
  let cat1 := if category.category1 = "" then "未分类" else category.category1
  let cat2 := if category.category2 = "" then "未分类" else category.category2
  type ++ "/" ++ dateMonth ++ "/" ++ cat1 ++ "/" ++ cat2 ++ "/" ++ filename

/-- `isCorrectLocation`: exact equality, with empty strings never
correct. -/
def isCorrectLocation (currentPath newPath : String) : Bool :=
  if currentPath = "" || newPath = "" then false else currentPath == newPath

/-! ## category-mapper.ts -/

/-- The label categorization source tag.  The source's string values are
`'csv'`, `'prefix'` and `'unknown'`; `prefixSrc` stands for `'prefix'`. -/
inductive LabelSource
  | csv
  | prefixSrc
  | unknown
deriving DecidableEq, Repr

/-- The `LabelCategoryResult` record of category-mapper.ts. -/
structure LabelCategoryResult where
  label : String
  category : Option CategoryInfo
  source : LabelSource
deriving DecidableEq, Repr

/-- `LABEL_PREFIX_TO_CATEGORY1`: the fixed 3-digit-prefix → category1
table. -/
def LABEL_PREFIX_TO_CATEGORY1 : List (String × String) :=
  [("011", "安监"), ("021", "设备-输电"), ("022", "设备-变电"),
   ("023", "设备-配电"), ("031", "营销"), ("041", "基建")]

/-- `extractPrefixFromLabel`: the regex `^(\d{3})_` — exactly three
digits followed by an underscore. -/
def extractPrefixFromLabel (label : String) : Option String :=
  match label.data with
  | a :: b :: c :: '_' :: _ =>
    if a.isDigit && b.isDigit && c.isDigit then some ⟨[a, b, c]⟩ else none
  | _ => none

/-- `getCategory1FromPrefix`: lookup in `LABEL_PREFIX_TO_CATEGORY1`. -/
def getCategory1FromPrefix (p : String) : Option String :=
  (LABEL_PREFIX_TO_CATEGORY1.find? (fun e => e.1 == p)).map (·.2)

/-- `categorizeLabelWithSource`, parameterized by the loaded
`labelCategoryMap` (`table`): CSV lookup first, then the prefix mapping
with `category2` forced to `未分类`, else unknown. -/
def categorizeLabelWithSource (table : String → Option CategoryInfo) (label : String) :
    LabelCategoryResult :=
  match table label with
  | some csvCategory => ⟨label, some csvCategory, .csv⟩
  | none =>
    match extractPrefixFromLabel label with
    | some p =>
      match getCategory1FromPrefix p with
      | some category1 => ⟨label, some ⟨category1, "未分类"⟩, .prefixSrc⟩
      | none => ⟨label, none, .unknown⟩
    | none => ⟨label, none, .unknown⟩

/-- One value of the `category1Groups` JS `Map` in
`filterCategoriesByRules`. -/
structure CatGroup where
  hasSpecific : Bool
  categories : List CategoryInfo
deriving DecidableEq, Repr

/-- Insertion-order upsert into the association list modelling the JS
`Map`: update the entry with the matching key in place, else append a
fresh entry at the end. -/
def upsertGroup : List (String × CatGroup) → String → CategoryInfo → Bool →
    List (String × CatGroup)
  | [], c1, ci, isSpec => [(c1, ⟨isSpec, [ci]⟩)]
  | (k, g) :: rest, c1, ci, isSpec =>
    if k = c1 then (k, ⟨g.hasSpecific || isSpec, g.categories ++ [ci]⟩) :: rest
    else (k, g) :: upsertGroup rest c1 ci isSpec

/-- One iteration of the group-building loop of
`filterCategoriesByRules`: a result with no category is skipped, the
rest are grouped by `category1` with `hasSpecific` set when the source
is `csv`. -/
def groupStep (gs : List (String × CatGroup)) (r : LabelCategoryResult) :
    List (String × CatGroup) :=
  match r.category with
  | none => gs
  | some ci => upsertGroup gs ci.category1 ci (r.source == .csv)

/-- The group-building loop of `filterCategoriesByRules`. -/
def buildGroups (results : List LabelCategoryResult) : List (String × CatGroup) :=
  results.foldl groupStep []

/-- The dedup key of `filterCategoriesByRules`:
`category2 ? "cat1/cat2" : cat1`. -/
def categoryKey (ci : CategoryInfo) : String :=
  if ci.category2 = "" then ci.category1 else ci.category1 ++ "/" ++ ci.category2

/-- One step of the output loop of `filterCategoriesByRules`: skip a
`<category1>/未分类` entry of a group that has a specific member, then
dedup by `categoryKey` (`acc.1` is the seen-key set, `acc.2` the output
in first-seen order). -/
def addCategory (acc : List String × List CategoryInfo) (hasSpec : Bool) (ci : CategoryInfo) :
    List String × List CategoryInfo :=
  if ci.category2 == "未分类" && hasSpec then acc
  else if acc.1.contains (categoryKey ci) then acc
  else (acc.1 ++ [categoryKey ci], acc.2 ++ [ci])

/-- `filterCategoriesByRules`: build the groups; when every result's
source is `unknown`, return the single-level `未分类/` default;
otherwise collect the groups' categories with the skip rule and the
dedup. -/
def filterCategoriesByRules (results : List LabelCategoryResult) : List CategoryInfo :=
  let groups := buildGroups results
  let allUnknown := results.all (fun r => r.source == .unknown)
  if allUnknown then [⟨"未分类", ""⟩]
  else
    (groups.foldl
      (fun acc kg => kg.2.categories.foldl (fun a ci => addCategory a kg.2.hasSpecific ci) acc)
      ([], [])).2

/-- `getCategoriesFromLabels`: empty input → empty output; otherwise
categorize every label and apply the filtering rules. -/
def getCategoriesFromLabels (table : String → Option CategoryInfo) (labels : List String) :
    List CategoryInfo :=
  if labels = [] then []
  else filterCategoriesByRules (labels.map (categorizeLabelWithSource table))

/-! ## file-processor.ts -/

/-- A JSON value as far as label extraction inspects one: a string, a
number, or anything else (`typeof` checks in the source). -/
inductive JVal
  | str (s : String)
  | num (n : Int)
  | other
deriving DecidableEq, Repr

/-- The `value` object of an annotation entry. -/
structure AnnotationValue where
  rectanglelabels : Option (List JVal)
deriving DecidableEq, Repr

/-- One element of a metadata `annotations` array (`AnnotationEntry` of
migration/types.ts); `value` is optional as the source's `annotation?.value`
guard allows. -/
structure AnnotationEntry where
  value : Option AnnotationValue
deriving DecidableEq, Repr

/-- `MetadataJson` of migration/types.ts: each field is `some` exactly
when the corresponding property is an array (`Array.isArray`). -/
structure MetadataJson where
  labels : Option (List JVal)
  annotations : Option (List AnnotationEntry)
  labelIds : Option (List JVal)
deriving DecidableEq, Repr

/-- Insertion into the `labels` JS `Set` for a candidate member: only
strings are added, first occurrence kept in order. -/
def addLabelStr (acc : List String) (v : JVal) : List String :=
  match v with
  | .str s => if acc.contains s then acc else acc ++ [s]
  | _ => acc

/-- The Format-2 step of `extractLabelsFromMetadata` for one annotation
entry: add every string member of `annotation?.value?.rectanglelabels`. -/
def annLabels (acc : List String) (e : AnnotationEntry) : List String :=
  match e.value with
  | some v => (v.rectanglelabels.getD []).foldl addLabelStr acc
  | none => acc

/-- The Format-3 step of `extractLabelsFromMetadata` for one `labelIds`
member: numbers are translated through the label-id map, unknown ids
skipped. -/
def addLabelId (idMap : Int → Option String) (acc : List String) (v : JVal) : List String :=
  match v with
  | .num n =>
    match idMap n with
    | some lbl => if acc.contains lbl then acc else acc ++ [lbl]
    | none => acc
  | _ => acc

/-- The accumulated label set after Format 1 (direct `labels` array) and
Format 2 (`annotations[].value.rectanglelabels`) of
`extractLabelsFromMetadata` — both formats run unconditionally in the
source. -/
def firstTwoFormats (m : MetadataJson) : List String :=
  (m.annotations.getD []).foldl annLabels ((m.labels.getD []).foldl addLabelStr [])

/-- `extractLabelsFromMetadata`, parameterized by the loaded
label-id map: Formats 1 and 2 always contribute; Format 3 (`labelIds`)
is consulted only when the set is still empty afterwards
(`labels.size === 0 && Array.isArray(metadata.labelIds)`). -/
def extractLabelsFromMetadata (idMap : Int → Option String) (m : MetadataJson) : List String :=
  let acc2 := firstTwoFormats m
  if acc2 = [] then
    match m.labelIds with
    | some ids => ids.foldl (addLabelId idMap) acc2
    | none => acc2
  else acc2

/-- `IMAGE_EXTENSIONS` of file-processor.ts. -/
def IMAGE_EXTENSIONS : List String := [".jpg", ".jpeg", ".png", ".gif", ".webp", ".bmp"]

/-- `FilePair` of migration/types.ts (the optional `labels` cache field is
never read by the processing steps and is omitted). -/
structure FilePair where
  imagePath : String
  jsonPath : String
  originalImagePath : Option String
  originalJsonPath : Option String
deriving DecidableEq, Repr

/-- `matchFilePairs(images, jsons)`: for each image key whose lowered
form ends in a recognized extension, try `{stem}.json` then
`{imagePath}.json` against the JSON key set; the first present wins,
images with neither are dropped. -/
def matchFilePairs (images jsons : List String) : List FilePair :=
  images.foldl
    (fun pairs imagePath =>
      match IMAGE_EXTENSIONS.find? (fun e => strEndsWith (asciiLower imagePath) e) with
      | none => pairs
      | some ext =>
        let stem : String := ⟨imagePath.data.take (imagePath.data.length - ext.data.length)⟩
        let jsonPath1 := stem ++ ".json"
        let jsonPath2 := imagePath ++ ".json"
        if jsons.contains jsonPath1 then pairs ++ [⟨imagePath, jsonPath1, none, none⟩]
        else if jsons.contains jsonPath2 then pairs ++ [⟨imagePath, jsonPath2, none, none⟩]
        else pairs)
    []

/-! ## stats-tracker.ts -/

/-- `MigrationStats` counters (the `startTime`/`endTime` stamps carry no
counting content and are omitted). -/
structure MigrationStats where
  total : Nat
  migrated : Nat
  skipped : Nat
  errors : Nat
  reclassified : Nat
deriving DecidableEq, Repr

/-- The counters of a freshly constructed `StatsTracker`. -/
def initStats : MigrationStats := ⟨0, 0, 0, 0, 0⟩

/-- `RecordType` of stats-tracker.ts. -/
inductive RecordType
  | migrated
  | skipped
  | error
  | reclassified
deriving DecidableEq, Repr

/-- `StatsTracker.record`: increment `total` and the counter selected by
the record type. -/
def record (s : MigrationStats) (t : RecordType) : MigrationStats :=
  let s' : MigrationStats := { s with total := s.total + 1 }
  match t with
  | .migrated => { s' with migrated := s'.migrated + 1 }
  | .skipped => { s' with skipped := s'.skipped + 1 }
  | .error => { s' with errors := s'.errors + 1 }
  | .reclassified => { s' with reclassified := s'.reclassified + 1 }

/-- The invariant of the stats counters: the total equals the sum of the
four outcome counters. -/
def statsInv (s : MigrationStats) : Prop :=
  s.total = s.migrated + s.skipped + s.errors + s.reclassified

/-! ## The migration script's per-pair steps (migrate-storage.ts)

Object-store calls are modelled as an operation trace.  `get` models
`getObject`; `copy`/`del` model the `copyObject`/`deleteObject` halves of
`moveObject`; `put` models `PutObjectCommand` uploads.  An environment
supplies the fetched-and-parsed metadata for a key (`none` models a
thrown `NotFound`/parse error), whether each mutating call succeeds, the
loaded category table and label-id map, and the current month. -/

inductive StoreOp
  | get (key : String)
  | copy (src dst : String)
  | del (key : String)
  | put (key : String)
deriving DecidableEq, Repr

/-- The environment a migration step runs in. -/
structure MigrationEnv where
  fetch : String → Option MetadataJson
  opOk : StoreOp → Bool
  table : String → Option CategoryInfo
  idMap : Int → Option String
  nowMonth : String

/-- Execute a planned sequence of store calls one after the other:
stop at (and include) the first failing call, as a thrown error aborts
the remaining `await`s; the flag reports whether all calls succeeded. -/
def runOps (opOk : StoreOp → Bool) : List StoreOp → List StoreOp × Bool
  | [] => ([], true)
  | op :: rest =>
    if opOk op then
      let r := runOps opOk rest
      (op :: r.1, r.2)
    else ([op], false)

/-- `moveObject(src, dst)` is `copyObject` then `deleteObject`. -/
def moveOps (src dst : String) : List StoreOp := [.copy src dst, .del src]

/-- `UNCATEGORIZED_CATEGORY` of migration/types.ts. -/
def UNCATEGORIZED_CATEGORY : CategoryInfo := ⟨"未分类", "未分类"⟩

/-- `getCategoryForLabels` of migrate-storage.ts: empty label list or no
resolved category → `UNCATEGORIZED_CATEGORY`, else the first resolved
category. -/
def getCategoryForLabels (table : String → Option CategoryInfo) (labels : List String) :
    CategoryInfo :=
  if labels = [] then UNCATEGORIZED_CATEGORY
  else
    match getCategoriesFromLabels table labels with
    | [] => UNCATEGORIZED_CATEGORY
    | c :: _ => c

/-- The outcome of one per-pair step: the store calls it issued and the
`StatsTracker.record` calls it made, in order. -/
structure PairOutcome where
  ops : List StoreOp
  recs : List RecordType
deriving DecidableEq, Repr

/-- `processFilePair`: fetch and parse the pair's metadata JSON (failure
is caught and recorded as `error`), resolve the category, compute both
destinations, skip when the image is already in place, in dry-run log
only, else move image then JSON (a failing half aborts the rest and is
recorded as `error`). -/
def processFilePair (env : MigrationEnv) (pair : FilePair) (dryRun : Bool) : PairOutcome :=
  match env.fetch pair.jsonPath with
  | none => ⟨[.get pair.jsonPath], [.error]⟩
  | some metadata =>
    let labels := extractLabelsFromMetadata env.idMap metadata
    let category := getCategoryForLabels env.table labels
    let dateMonth := extractDateFromPath env.nowMonth pair.imagePath
    let newImagePath := calculateNewPath pair.imagePath dateMonth category
    let newJsonPath := calculateNewPath pair.jsonPath dateMonth category
    if isCorrectLocation pair.imagePath newImagePath then ⟨[.get pair.jsonPath], [.skipped]⟩
    else if dryRun then ⟨[.get pair.jsonPath], [.migrated]⟩
    else
      let r := runOps env.opOk (moveOps pair.imagePath newImagePath ++
                                moveOps pair.jsonPath newJsonPath)
      ⟨StoreOp.get pair.jsonPath :: r.1, [if r.2 then RecordType.migrated else RecordType.error]⟩

/-- `processNonCompliantPair`: it first classifies `pair.imagePath`
*outside* its `try` block (for the verbose log), so a `URIError` thrown
there crashes the step before anything is recorded — modelled by `none`.
Otherwise: reads use the original (encoded) keys when present, while
both destinations are computed from the decoded keys; there is no
already-correct check; dry-run issues no move. -/
def processNonCompliantPair (env : MigrationEnv) (pair : FilePair) (dryRun : Bool) :
    Option PairOutcome :=
  match getPathViolationType pair.imagePath with
  | none => none
  | some _ =>
    let sourceImagePath := pair.originalImagePath.getD pair.imagePath
    let sourceJsonPath := pair.originalJsonPath.getD pair.jsonPath
    some <|
      match env.fetch sourceJsonPath with
      | none => ⟨[.get sourceJsonPath], [.error]⟩
      | some metadata =>
        let labels := extractLabelsFromMetadata env.idMap metadata
        let category := getCategoryForLabels env.table labels
        let dateMonth := extractDateFromPath env.nowMonth pair.imagePath
        let newImagePath := calculateNewPath pair.imagePath dateMonth category
        let newJsonPath := calculateNewPath pair.jsonPath dateMonth category
        if dryRun then ⟨[.get sourceJsonPath], [.migrated]⟩
        else
          let r := runOps env.opOk (moveOps sourceImagePath newImagePath ++
                                    moveOps sourceJsonPath newJsonPath)
          ⟨StoreOp.get sourceJsonPath :: r.1,
           [if r.2 then RecordType.migrated else RecordType.error]⟩

/-- `processReclassifyPair`: fetch metadata, resolve the category; if
`category1` is still `未分类` record `skipped`; otherwise move (or, in
dry-run, only log) and record `reclassified`; any thrown error is caught
and recorded as `error`. -/
def processReclassifyPair (env : MigrationEnv) (pair : FilePair) (dryRun : Bool) : PairOutcome :=
  match env.fetch pair.jsonPath with
  | none => ⟨[.get pair.jsonPath], [.error]⟩
  | some metadata =>
    let labels := extractLabelsFromMetadata env.idMap metadata
    let category := getCategoryForLabels env.table labels
    if category.category1 = "未分类" then ⟨[.get pair.jsonPath], [.skipped]⟩
    else
      let dateMonth := extractDateFromPath env.nowMonth pair.imagePath
      let newImagePath := calculateNewPath pair.imagePath dateMonth category
      let newJsonPath := calculateNewPath pair.jsonPath dateMonth category
      if dryRun then ⟨[.get pair.jsonPath], [.reclassified]⟩
      else
        let r := runOps env.opOk (moveOps pair.imagePath newImagePath ++
                                  moveOps pair.jsonPath newJsonPath)
        ⟨StoreOp.get pair.jsonPath :: r.1,
         [if r.2 then RecordType.reclassified else RecordType.error]⟩

/-! ## minio.ts `storeWithMetadata` (the write-time placer) -/

/-- The write-time request fields that determine the issued keys. -/
structure StoreOptions where
  type : String
  filename : String
  labels : Option (List String)
deriving Repr

/-- The category fan-out of `storeWithMetadata`: resolved categories when
labels are present and non-empty, with the single-level `未分类`
default substituted when absent, empty, or unresolvable. -/
def storeCategories (table : String → Option CategoryInfo) (labels : Option (List String)) :
    List CategoryInfo :=
  match labels with
  | some ls =>
    if ls.length > 0 then
      match getCategoriesFromLabels table ls with
      | [] => [⟨"未分类", ""⟩]
      | cs => cs
    else [⟨"未分类", ""⟩]
  | none => [⟨"未分类", ""⟩]

/-- The filename stem: the characters before the last `.`, or the whole
filename when it has none. -/
def stemOf (filename : String) : String :=
  if filename.data.contains '.' then
    ⟨((filename.data.reverse.dropWhile (fun c => c != '.')).drop 1).reverse⟩
  else filename

/-- The base path of one category:
`{type}/{month}/{category1}[/{category2}]`, the `category2` segment
omitted entirely when it is empty. -/
def storeBasePath (type month : String) (c : CategoryInfo) : String :=
  if c.category2 = "" then type ++ "/" ++ month ++ "/" ++ c.category1
  else type ++ "/" ++ month ++ "/" ++ c.category1 ++ "/" ++ c.category2

/-- The writes `storeWithMetadata` plans, in issue order: for each
resolved category, the file object then the metadata JSON. -/
def storePlannedOps (table : String → Option CategoryInfo) (nowMonth : String)
    (opts : StoreOptions) : List StoreOp :=
  ((storeCategories table opts.labels).map (fun c =>
    [StoreOp.put (storeBasePath opts.type nowMonth c ++ "/" ++ opts.filename),
     StoreOp.put (storeBasePath opts.type nowMonth c ++ "/" ++ stemOf opts.filename ++ ".json")])).flatten

/-- The category loop of `storeWithMetadata`: per category upload the
file then the metadata; a failing upload throws, aborting the remaining
iterations (result `none`); on success the accumulated `allPaths`. -/
def storeLoop (opOk : StoreOp → Bool) (type month stem filename : String) :
    List CategoryInfo → List StoreOp × Option (List String)
  | [] => ([], some [])
  | c :: rest =>
    let basePath := storeBasePath type month c
    let filePath := basePath ++ "/" ++ filename
    let metadataPath := basePath ++ "/" ++ stem ++ ".json"
    if opOk (.put filePath) then
      if opOk (.put metadataPath) then
        let r := storeLoop opOk type month stem filename rest
        (StoreOp.put filePath :: StoreOp.put metadataPath :: r.1, r.2.map (filePath :: ·))
      else ([.put filePath, .put metadataPath], none)
    else ([.put filePath], none)

/-- `storeWithMetadata`: the issued writes and, on success, the stored
file paths in order (`allPaths`; the source returns the first as
`filePath`).  `none` models the propagated upload error. -/
def storeWithMetadata (opOk : StoreOp → Bool) (table : String → Option CategoryInfo)
    (nowMonth : String) (opts : StoreOptions) : List StoreOp × Option (List String) :=
  storeLoop opOk opts.type nowMonth (stemOf opts.filename) opts.filename
    (storeCategories table opts.labels)

/-! ## Concrete fixtures used by witnesses and counterexamples -/

/-- An empty category table. -/
def noTable : String → Option CategoryInfo := fun _ => none

/-- An empty label-id map. -/
def noIdMap : Int → Option String := fun _ => none

/-- Metadata with no label-bearing field. -/
def mdEmpty : MetadataJson := ⟨none, none, none⟩

/-- Metadata whose `labels` array holds the string `"a"`, whose
`annotations` array holds one entry with rectanglelabel `"b"`, and which
also carries a `labelIds` array. -/
def mC1 : MetadataJson := ⟨some [.str "a"], some [⟨some ⟨some [.str "b"]⟩⟩], some [.num 5]⟩

/-- A category table holding exactly the CSV row
`021_gt_hd_xs → 设备-输电/杆塔` assumed by the specification's examples. -/
def demoTable : String → Option CategoryInfo :=
  fun l => if l = "021_gt_hd_xs" then some ⟨"设备-输电", "杆塔"⟩ else none

/-- The specification's url-encoded root-level key example. -/
def encKeyC3 : String := "detection%2F2024-01%2F未分类%2F未分类%2Ffile.jpg"

/-- Its decoded form. -/
def decKeyC3 : String := "detection/2024-01/未分类/未分类/file.jpg"

/-- The companion metadata key, encoded form. -/
def encJsonC3 : String := "detection%2F2024-01%2F未分类%2F未分类%2Ffile.json"

/-- The companion metadata key, decoded form. -/
def decJsonC3 : String := "detection/2024-01/未分类/未分类/file.json"

/-- A url-encoded-root file pair as the bucket scanner builds one:
decoded keys for path arithmetic, original keys for retrieval. -/
def pairC3 : FilePair := ⟨decKeyC3, decJsonC3, some encKeyC3, some encJsonC3⟩

/-- An environment whose store holds the metadata under the encoded
JSON key only, and in which every mutating call succeeds. -/
def envC3 : MigrationEnv :=
  { fetch := fun k => if k = encJsonC3 then some mdEmpty else none
    opOk := fun _ => true
    table := noTable
    idMap := noIdMap
    nowMonth := "2024-01" }

/-- A canonical already-in-place pair for the idempotence witness. -/
def pairC6 : FilePair :=
  ⟨"detection/2026-01/未分类/未分类/a.jpg", "detection/2026-01/未分类/未分类/a.json",
   none, none⟩

/-- Environment for the idempotence witness. -/
def envC6 : MigrationEnv :=
  { fetch := fun k => if k = "detection/2026-01/未分类/未分类/a.json" then some mdEmpty else none
    opOk := fun _ => true
    table := noTable
    idMap := noIdMap
    nowMonth := "2026-01" }

/-- A legacy flat pair whose computed destination differs from its
current location. -/
def pairC8 : FilePair :=
  ⟨"detection/2026-01-22/a.jpg", "detection/2026-01-22/a.json", none, none⟩

/-- Environment for the dry-run witness. -/
def envC8 : MigrationEnv :=
  { fetch := fun k => if k = "detection/2026-01-22/a.json" then some mdEmpty else none
    opOk := fun _ => true
    table := noTable
    idMap := noIdMap
    nowMonth := "2026-01" }

/-- A reachable pair whose image key contains the literal `%2F` next to
a malformed percent-escape: classifying it throws a `URIError`. -/
def pairC9 : FilePair := ⟨"detection/x%2F%zz.jpg", "detection/x%2F%zz.json", none, none⟩

/-- A fully co-operative environment (every fetch and mutating call
succeeds). -/
def envC9 : MigrationEnv :=
  { fetch := fun _ => some mdEmpty
    opOk := fun _ => true
    table := noTable
    idMap := noIdMap
    nowMonth := "2026-01" }

/-! ## Supporting lemmas -/

theorem foldl_addLabelStr_ne_nil (l : List JVal) (acc : List String) (h : acc ≠ []) :
    l.foldl addLabelStr acc ≠ [] := by
  induction l generalizing acc with
  | nil => exact h
  | cons v rest ih =>
    apply ih
    cases v with
    | str s =>
      simp only [addLabelStr]
      split
      · exact h
      · simp
    | num n => exact h
    | other => exact h

theorem foldl_annLabels_ne_nil (es : List AnnotationEntry) (acc : List String) (h : acc ≠ []) :
    es.foldl annLabels acc ≠ [] := by
  induction es generalizing acc with
  | nil => exact h
  | cons e rest ih =>
    apply ih
    unfold annLabels
    cases e.value with
    | none => exact h
    | some v => exact foldl_addLabelStr_ne_nil _ _ h

/-! ## C1 -/

/-- C1 counterexample: with a non-empty `labels` array (whose string
members are exactly `["a"]`) and a non-empty `annotations` array,
extraction returns `["a", "b"]`, not just the string members of
`labels`: the `annotations` array contributes `"b"` even though `labels`
is non-empty, refuting the claimed first-non-empty-wins precedence of
`labels` over `annotations`. -/
theorem extractLabels_precedence_counterexample :
    extractLabelsFromMetadata noIdMap mC1 = ["a", "b"]
    ∧ (mC1.labels.getD []).foldl addLabelStr [] = ["a"] := ⟨rfl, rfl⟩

/-- C1 amended: when the `labels` array contains at least one string,
`extractLabelsFromMetadata` returns the deduplicated union of the string
members of `labels` and of all `rectanglelabels` strings across
`annotations` (in that order); the `labelIds` array and the label-id
table contribute nothing (the result does not depend on `idMap` and
ignores `m.labelIds`). -/
theorem extractLabels_union_when_labels_nonempty (idMap : Int → Option String)
    (m : MetadataJson) (h : (m.labels.getD []).foldl addLabelStr [] ≠ []) :
    extractLabelsFromMetadata idMap m = firstTwoFormats m := by
  unfold extractLabelsFromMetadata
  have h2 : firstTwoFormats m ≠ [] := foldl_annLabels_ne_nil _ _ h
  simp [h2]

/-- C1 amended witness at the concrete metadata `mC1`. -/
theorem extractLabels_union_witness :
    extractLabelsFromMetadata noIdMap mC1 = firstTwoFormats mC1 :=
  extractLabels_union_when_labels_nonempty noIdMap mC1 (by decide)

/-! ## C2 -/

/-- C2 counterexample: on the string `"detection%2F%zz"` — which
contains the literal `%2F` next to a malformed percent-escape —
`getPathViolationType` does not return normally: `decodeURIComponent`
throws a `URIError` (modelled by `none`), refuting totality. -/
theorem getPathViolationType_throws_counterexample :
    getPathViolationType "detection%2F%zz" = none := rfl

/-- C2 amended: `getPathViolationType` returns normally — with exactly
one of the five violation types — on every string that either does not
contain the literal `%2F` or whose percent-decoding succeeds; it throws
(only) when the string contains `%2F` and `decodeURIComponent` fails. -/
theorem getPathViolationType_total_unless_decode_fails (s : String)
    (h : strIncludes s "%2F" = false ∨ (decodeURIComponent s).isSome = true) :
    (getPathViolationType s).isSome = true := by
  unfold getPathViolationType
  by_cases hs : s = ""
  · simp [hs]
  · rw [if_neg hs]
    have hurl : (isUrlEncodedRootPath s).isSome = true := by
      unfold isUrlEncodedRootPath
      rcases h with h | h
      · simp [URL_ENCODED_SEPARATOR, h]
      · split
        · simp
        · cases hd : decodeURIComponent s with
          | none => rw [hd] at h; simp at h
          | some d => simp
    cases hu : isUrlEncodedRootPath s with
    | none => rw [hu] at hurl; simp at hurl
    | some b =>
      cases b with
      | true => simp
      | false =>
        simp only []
        split
        · simp
        · split
          · simp
          · split <;> simp

/-- C2 amended witness: the empty string (explicitly named by the claim)
is classified normally. -/
theorem getPathViolationType_total_witness :
    (getPathViolationType "").isSome = true :=
  getPathViolationType_total_unless_decode_fails "" (Or.inl rfl)

/-! ## C10 -/

/-- C10: `matchFilePairs` does not consume a matched JSON key: the
images `["a.jpg", "a.jpeg"]` with the single JSON key `["a.json"]`
produce two pairs that share `jsonPath = "a.json"`. -/
theorem matchFilePairs_shares_json :
    matchFilePairs ["a.jpg", "a.jpeg"] ["a.json"] =
      [⟨"a.jpg", "a.json", none, none⟩, ⟨"a.jpeg", "a.json", none, none⟩] := rfl

/-! ## C5 -/

/-- C5: when every label of a non-empty list categorizes as `unknown`
(no exact table entry and no usable 3-digit prefix), the resolver
returns exactly the single flat entry `{未分类, ""}`; and the empty
label list resolves to the empty list. -/
theorem all_unknown_single_default (table : String → Option CategoryInfo)
    (labels : List String) (hne : labels ≠ [])
    (hunk : ∀ l ∈ labels, (categorizeLabelWithSource table l).source = LabelSource.unknown) :
    getCategoriesFromLabels table labels = [⟨"未分类", ""⟩]
    ∧ getCategoriesFromLabels table [] = [] := by
  refine ⟨?_, rfl⟩
  unfold getCategoriesFromLabels
  rw [if_neg hne]
  have hall : (labels.map (categorizeLabelWithSource table)).all
      (fun r => r.source == LabelSource.unknown) = true := by
    rw [List.all_eq_true]
    intro r hr
    rw [List.mem_map] at hr
    obtain ⟨l, hl, rfl⟩ := hr
    simp [hunk l hl]
  unfold filterCategoriesByRules
  simp [hall]

/-- C5 witness at `resolve(["completely_unknown_xyz"])` over the empty
table. -/
theorem all_unknown_single_default_witness :
    getCategoriesFromLabels noTable ["completely_unknown_xyz"] = [⟨"未分类", ""⟩]
    ∧ getCategoriesFromLabels noTable [] = [] :=
  all_unknown_single_default noTable ["completely_unknown_xyz"] (by decide) (by decide)

/-! ## C9 -/

/-- C9 counterexample: the scan-all per-pair step on a pair whose image
key holds the literal `%2F` next to a malformed percent-escape throws
while classifying the path — before its `try` block — so the execution
makes no `StatsTracker.record` call at all. -/
theorem processNonCompliantPair_crash_counterexample :
    processNonCompliantPair envC9 pairC9 false = none := rfl

/-- C9 amended: every completed execution of a per-pair step records
exactly once (`processNonCompliantPair` completes whenever classifying
the image path does not throw); `record` increments `total` and exactly
the one counter selected by its argument; hence
`total = migrated + skipped + errors + reclassified` holds after any
sequence of records on a fresh tracker. -/
theorem record_once_per_pair_and_invariant :
    (∀ env pair dryRun, (processFilePair env pair dryRun).recs.length = 1)
    ∧ (∀ env pair dryRun, (processReclassifyPair env pair dryRun).recs.length = 1)
    ∧ (∀ env pair dryRun out, processNonCompliantPair env pair dryRun = some out →
        out.recs.length = 1)
    ∧ (∀ s, record s RecordType.migrated
          = { s with total := s.total + 1, migrated := s.migrated + 1 }
        ∧ record s RecordType.skipped
          = { s with total := s.total + 1, skipped := s.skipped + 1 }
        ∧ record s RecordType.error
          = { s with total := s.total + 1, errors := s.errors + 1 }
        ∧ record s RecordType.reclassified
          = { s with total := s.total + 1, reclassified := s.reclassified + 1 })
    ∧ (∀ ts : List RecordType, statsInv (ts.foldl record initStats)) := by
  refine ⟨?_, ?_, ?_, ?_, ?_⟩
  · intro env pair dryRun
    unfold processFilePair
    cases env.fetch pair.jsonPath with
    | none => rfl
    | some md =>
      dsimp only
      split
      · rfl
      · split
        · rfl
        · rfl
  · intro env pair dryRun
    unfold processReclassifyPair
    cases env.fetch pair.jsonPath with
    | none => rfl
    | some md =>
      dsimp only
      split
      · rfl
      · split
        · rfl
        · rfl
  · intro env pair dryRun out h
    unfold processNonCompliantPair at h
    cases hv : getPathViolationType pair.imagePath with
    | none => rw [hv] at h; simp at h
    | some v =>
      rw [hv] at h
      simp only [Option.some.injEq] at h
      subst h
      cases env.fetch (pair.originalJsonPath.getD pair.jsonPath) with
      | none => rfl
      | some md =>
        dsimp only
        split
        · rfl
        · rfl
  · intro s
    exact ⟨rfl, rfl, rfl, rfl⟩
  · intro ts
    have step : ∀ s t, statsInv s → statsInv (record s t) := by
      intro s t h
      cases t <;> simp only [record, statsInv] at * <;> omega
    have gen : ∀ (l : List RecordType) (s : MigrationStats),
        statsInv s → statsInv (l.foldl record s) := by
      intro l
      induction l with
      | nil => intro s h; exact h
      | cons t rest ih => intro s h; exact ih _ (step s t h)
    exact gen ts initStats rfl

/-- C9 amended witness: a completed scan-all step at a concrete pair has
exactly one record. -/
theorem record_once_witness :
    (⟨[StoreOp.get "detection/2026-01-22/a.json"], [RecordType.migrated]⟩ :
        PairOutcome).recs.length = 1 :=
  record_once_per_pair_and_invariant.2.2.1 envC8 pairC8 true _ rfl

/-! ## Sequential-run lemmas -/

theorem runOps_all_ok (opOk : StoreOp → Bool) (ops : List StoreOp)
    (h : ∀ op ∈ ops, opOk op = true) : runOps opOk ops = (ops, true) := by
  induction ops with
  | nil => rfl
  | cons op rest ih =>
    have hop := h op (List.mem_cons_self _ _)
    simp [runOps, hop, ih (fun o ho => h o (List.mem_cons_of_mem _ ho))]

theorem runOps_trace_take (opOk : StoreOp → Bool) (ops : List StoreOp) :
    (runOps opOk ops).1 = ops.take ((ops.takeWhile opOk).length + 1) := by
  induction ops with
  | nil => rfl
  | cons op rest ih =>
    cases hop : opOk op with
    | true => simp [runOps, hop, List.takeWhile_cons, ih]
    | false => simp [runOps, hop, List.takeWhile_cons]

theorem runOps_ok_iff (opOk : StoreOp → Bool) (ops : List StoreOp) :
    (runOps opOk ops).2 = true ↔ ∀ op ∈ ops, opOk op = true := by
  induction ops with
  | nil => simp [runOps]
  | cons op rest ih =>
    cases hop : opOk op with
    | true => simpa [runOps, hop] using ih
    | false => simp [runOps, hop]

theorem optionIsSome_map {α β : Type} (o : Option α) (f : α → β) :
    (o.map f).isSome = o.isSome := by
  cases o <;> rfl

theorem storeLoop_runOps (opOk : StoreOp → Bool) (type month stem filename : String)
    (cats : List CategoryInfo) :
    (storeLoop opOk type month stem filename cats).1 =
      (runOps opOk ((cats.map (fun c =>
        [StoreOp.put (storeBasePath type month c ++ "/" ++ filename),
         StoreOp.put (storeBasePath type month c ++ "/" ++ stem ++ ".json")])).flatten)).1
    ∧ (storeLoop opOk type month stem filename cats).2.isSome =
        (runOps opOk ((cats.map (fun c =>
          [StoreOp.put (storeBasePath type month c ++ "/" ++ filename),
           StoreOp.put (storeBasePath type month c ++ "/" ++ stem ++ ".json")])).flatten)).2 := by
  induction cats with
  | nil => exact ⟨rfl, rfl⟩
  | cons c rest ih =>
    cases h1 : opOk (.put (storeBasePath type month c ++ "/" ++ filename)) with
    | false => simp [storeLoop, runOps, h1]
    | true =>
      cases h2 : opOk (.put (storeBasePath type month c ++ "/" ++ stem ++ ".json")) with
      | false => simp [storeLoop, runOps, h1, h2]
      | true =>
        refine ⟨?_, ?_⟩
        · simp [storeLoop, runOps, h1, h2, ih.1]
        · simp [storeLoop, runOps, h1, h2, optionIsSome_map, ih.2]

/-! ## C7 -/

/-- C7: `storeWithMetadata` issues its writes strictly in the planned
sequential order — its trace is the planned list cut at the first
failing write (the whole list when none fails); it succeeds exactly when
every planned write succeeds (any failure propagates, aborting the
remaining writes); and the trace contains only `put` operations, so no
earlier write is ever deleted or rolled back on error. -/
theorem storeWithMetadata_sequential_abort_no_rollback (opOk : StoreOp → Bool)
    (table : String → Option CategoryInfo) (nowMonth : String) (opts : StoreOptions) :
    (storeWithMetadata opOk table nowMonth opts).1
      = (storePlannedOps table nowMonth opts).take
          (((storePlannedOps table nowMonth opts).takeWhile opOk).length + 1)
    ∧ ((storeWithMetadata opOk table nowMonth opts).2.isSome
        ↔ ∀ op ∈ storePlannedOps table nowMonth opts, opOk op = true)
    ∧ (∀ op ∈ (storeWithMetadata opOk table nowMonth opts).1, ∃ k, op = StoreOp.put k) := by
  have hrel := storeLoop_runOps opOk opts.type nowMonth (stemOf opts.filename) opts.filename
      (storeCategories table opts.labels)
  have htrace : (storeWithMetadata opOk table nowMonth opts).1
      = (runOps opOk (storePlannedOps table nowMonth opts)).1 := hrel.1
  have hflag : (storeWithMetadata opOk table nowMonth opts).2.isSome
      = (runOps opOk (storePlannedOps table nowMonth opts)).2 := hrel.2
  refine ⟨?_, ?_, ?_⟩
  · rw [htrace, runOps_trace_take]
  · rw [hflag, runOps_ok_iff]
  · intro op hop
    rw [htrace, runOps_trace_take] at hop
    have hmem : op ∈ storePlannedOps table nowMonth opts := List.mem_of_mem_take hop
    unfold storePlannedOps at hmem
    rw [List.mem_flatten] at hmem
    obtain ⟨l, hl, hopl⟩ := hmem
    rw [List.mem_map] at hl
    obtain ⟨c, _, rfl⟩ := hl
    simp only [List.mem_cons, List.mem_singleton, List.not_mem_nil, or_false] at hopl
    rcases hopl with rfl | rfl
    · exact ⟨_, rfl⟩
    · exact ⟨_, rfl⟩

/-! ## C8 -/

/-- C8: in dry-run mode the per-pair step's operation trace is exactly
the one metadata `get` — no copy, delete or put is issued, so storage is
unchanged — and, when the metadata fetch succeeds and the computed
destination differs from the current location, the step records
`migrated`, exactly as a real (non-dry) run with succeeding moves
would. -/
theorem dryRun_no_mutation_counts_migrated (env : MigrationEnv) (pair : FilePair) :
    (processFilePair env pair true).ops = [StoreOp.get pair.jsonPath]
    ∧ (∀ out, processNonCompliantPair env pair true = some out →
        out.ops = [StoreOp.get (pair.originalJsonPath.getD pair.jsonPath)])
    ∧ (∀ md, env.fetch pair.jsonPath = some md →
        isCorrectLocation pair.imagePath
          (calculateNewPath pair.imagePath (extractDateFromPath env.nowMonth pair.imagePath)
            (getCategoryForLabels env.table (extractLabelsFromMetadata env.idMap md))) = false →
        (processFilePair env pair true).recs = [RecordType.migrated]
        ∧ ((∀ op, env.opOk op = true) →
            (processFilePair env pair false).recs = [RecordType.migrated])) := by
  refine ⟨?_, ?_, ?_⟩
  · unfold processFilePair
    cases env.fetch pair.jsonPath with
    | none => rfl
    | some md =>
      dsimp only
      split
      · rfl
      · rfl
  · intro out h
    unfold processNonCompliantPair at h
    cases hv : getPathViolationType pair.imagePath with
    | none => rw [hv] at h; simp at h
    | some v =>
      rw [hv] at h
      simp only [Option.some.injEq] at h
      subst h
      cases env.fetch (pair.originalJsonPath.getD pair.jsonPath) with
      | none => rfl
      | some md => rfl
  · intro md hmd hloc
    constructor
    · unfold processFilePair
      rw [hmd]
      dsimp only
      rw [hloc]
      rfl
    · intro hops
      unfold processFilePair
      rw [hmd]
      dsimp only
      rw [hloc]
      simp only [Bool.false_eq_true, if_false]
      rw [runOps_all_ok env.opOk _ (fun op _ => hops op)]
      rfl

/-- C8 witness: a concrete legacy pair whose destination differs — the
dry-run trace is the single metadata `get` and both the dry run and the
all-succeeding real run record `migrated`. -/
theorem dryRun_no_mutation_witness :
    (processFilePair envC8 pairC8 true).ops = [StoreOp.get pairC8.jsonPath]
    ∧ (processFilePair envC8 pairC8 true).recs = [RecordType.migrated]
    ∧ (processFilePair envC8 pairC8 false).recs = [RecordType.migrated] :=
  ⟨(dryRun_no_mutation_counts_migrated envC8 pairC8).1,
   ((dryRun_no_mutation_counts_migrated envC8 pairC8).2.2 mdEmpty rfl (by decide)).1,
   ((dryRun_no_mutation_counts_migrated envC8 pairC8).2.2 mdEmpty rfl (by decide)).2
     (fun op => rfl)⟩

/-! ## C3 -/

/-- C3: for a pair carrying original (encoded) keys, the non-dry-run
scan-all step reads — `get`s, `copy`-sources and `delete`s — using the
literal encoded keys, while both destinations are computed by
`calculateNewPath` from the decoded keys; and the specification's
root-level key example classifies as `url-encoded-root` and decodes to
its slash form. -/
theorem urlEncoded_pair_reads_encoded_writes_decoded
    (env : MigrationEnv) (pair : FilePair) (oi oj : String) (md : MetadataJson)
    (h1 : pair.originalImagePath = some oi) (h2 : pair.originalJsonPath = some oj)
    (hcls : (getPathViolationType pair.imagePath).isSome = true)
    (hfetch : env.fetch oj = some md)
    (hops : ∀ op, env.opOk op = true) :
    processNonCompliantPair env pair false = some
      ⟨[StoreOp.get oj,
        StoreOp.copy oi (calculateNewPath pair.imagePath
          (extractDateFromPath env.nowMonth pair.imagePath)
          (getCategoryForLabels env.table (extractLabelsFromMetadata env.idMap md))),
        StoreOp.del oi,
        StoreOp.copy oj (calculateNewPath pair.jsonPath
          (extractDateFromPath env.nowMonth pair.imagePath)
          (getCategoryForLabels env.table (extractLabelsFromMetadata env.idMap md))),
        StoreOp.del oj],
       [RecordType.migrated]⟩
    ∧ getPathViolationType encKeyC3 = some PathViolationType.urlEncodedRoot
    ∧ decodeURIComponent encKeyC3 = some decKeyC3 := by
  refine ⟨?_, rfl, rfl⟩
  unfold processNonCompliantPair
  cases hv : getPathViolationType pair.imagePath with
  | none => rw [hv] at hcls; simp at hcls
  | some v =>
    simp only [h1, h2, Option.getD_some, hfetch]
    rw [runOps_all_ok env.opOk _ (fun op _ => hops op)]
    rfl

/-- C3 witness at the specification's concrete key: the step reads from
the encoded keys and writes to the decoded (already-normalized) keys. -/
theorem urlEncoded_pair_witness :
    processNonCompliantPair envC3 pairC3 false = some
      ⟨[StoreOp.get encJsonC3, StoreOp.copy encKeyC3 decKeyC3, StoreOp.del encKeyC3,
        StoreOp.copy encJsonC3 decJsonC3, StoreOp.del encJsonC3],
       [RecordType.migrated]⟩ := by
  have h := (urlEncoded_pair_reads_encoded_writes_decoded envC3 pairC3 encKeyC3 encJsonC3
    mdEmpty rfl rfl (by decide) rfl (fun op => rfl)).1
  rw [h]
  rfl

/-! ## String-splitting lemmas for C6 -/

theorem takeWhile_append_of_all {p : Char → Bool} (xs ys : List Char) (h : xs.all p = true) :
    (xs ++ ys).takeWhile p = xs ++ ys.takeWhile p := by
  induction xs with
  | nil => simp
  | cons c rest ih =>
    rw [List.all_cons, Bool.and_eq_true] at h
    simp [List.takeWhile_cons, h.1, ih h.2]

theorem splitOnSlash_append (xs ys : List Char) (h : xs.all (fun c => c != '/') = true) :
    splitOnSlash (xs ++ '/' :: ys) = xs :: splitOnSlash ys := by
  induction xs with
  | nil => simp [splitOnSlash]
  | cons c rest ih =>
    rw [List.all_cons, Bool.and_eq_true] at h
    have hc : ¬ c = '/' := by simpa using h.1
    simp only [List.cons_append, splitOnSlash, if_neg hc]
    rw [List.append_eq, ih h.2]

theorem splitOnSlash_noSlash (xs : List Char) (h : xs.all (fun c => c != '/') = true) :
    splitOnSlash xs = [xs] := by
  induction xs with
  | nil => rfl
  | cons c rest ih =>
    rw [List.all_cons, Bool.and_eq_true] at h
    have hc : ¬ c = '/' := by simpa using h.1
    simp only [splitOnSlash, if_neg hc, ih h.2]

theorem pathSegs_join5 (t m c1 c2 f : String)
    (ht : noSlash t = true) (hm : noSlash m = true) (hc1 : noSlash c1 = true)
    (hc2 : noSlash c2 = true) (hf : noSlash f = true) :
    pathSegs (t ++ "/" ++ m ++ "/" ++ c1 ++ "/" ++ c2 ++ "/" ++ f) = [t, m, c1, c2, f] := by
  unfold pathSegs
  have hdata : (t ++ "/" ++ m ++ "/" ++ c1 ++ "/" ++ c2 ++ "/" ++ f).data =
      t.data ++ '/' :: (m.data ++ '/' :: (c1.data ++ '/' :: (c2.data ++ '/' :: f.data))) := by
    simp [String.data_append]
  rw [hdata, splitOnSlash_append _ _ ht, splitOnSlash_append _ _ hm,
      splitOnSlash_append _ _ hc1, splitOnSlash_append _ _ hc2, splitOnSlash_noSlash _ hf]
  rfl

theorem data_ne_nil_of_ne_empty (s : String) (h : s ≠ "") : s.data ≠ [] := by
  intro hd
  apply h
  apply String.ext
  simpa using hd

theorem extractTypeFromPath_join (t : String) (rest : List Char)
    (ht : t ≠ "") (htn : noSlash t = true) :
    extractTypeFromPath ⟨t.data ++ '/' :: rest⟩ = t := by
  have hne : (⟨t.data ++ '/' :: rest⟩ : String) ≠ "" := by
    intro h
    have := congrArg String.data h
    simp at this
  unfold extractTypeFromPath
  rw [if_neg hne]
  have hstart : strStartsWith ⟨t.data ++ '/' :: rest⟩ "/" = false := by
    obtain ⟨c, cs, hcs⟩ : ∃ c cs, t.data = c :: cs := by
      cases hd : t.data with
      | nil => exact absurd hd (data_ne_nil_of_ne_empty t ht)
      | cons c cs => exact ⟨c, cs, rfl⟩
    have hcne : (c != '/') = true := by
      have := htn
      unfold noSlash at this
      rw [hcs, List.all_cons, Bool.and_eq_true] at this
      exact this.1
    unfold strStartsWith
    rw [hcs]
    simp only [List.cons_append]
    show (['/'].isPrefixOf (c :: (cs ++ '/' :: rest))) = false
    simp [List.isPrefixOf]
    intro h
    rw [h] at hcne
    simp at hcne
  rw [hstart]
  simp only [Bool.false_eq_true, if_false]
  rw [takeWhile_append_of_all t.data ('/' :: rest) htn]
  simp [List.takeWhile_cons]

/-! ## C6 -/

/-- C6: for a canonical 5-segment key (non-empty slash-free type and
categories, slash-free month and filename), `calculateNewPath` with the
matching month and category returns the key itself, `isCorrectLocation`
reports true, and the per-pair migration step therefore records the pair
as `skipped` with no move issued (its trace is the single metadata
`get`). -/
theorem calculateNewPath_idempotent_skip (t m c1 c2 f j : String) (env : MigrationEnv)
    (md : MetadataJson) (dryRun : Bool)
    (ht : t ≠ "") (htn : noSlash t = true) (hm : noSlash m = true)
    (hc1 : c1 ≠ "") (hc1n : noSlash c1 = true)
    (hc2 : c2 ≠ "") (hc2n : noSlash c2 = true) (hfn : noSlash f = true)
    (hfetch : env.fetch j = some md)
    (hcat : getCategoryForLabels env.table (extractLabelsFromMetadata env.idMap md) = ⟨c1, c2⟩)
    (hdate : extractDateFromPath env.nowMonth
        (t ++ "/" ++ m ++ "/" ++ c1 ++ "/" ++ c2 ++ "/" ++ f) = m) :
    calculateNewPath (t ++ "/" ++ m ++ "/" ++ c1 ++ "/" ++ c2 ++ "/" ++ f) m ⟨c1, c2⟩
      = t ++ "/" ++ m ++ "/" ++ c1 ++ "/" ++ c2 ++ "/" ++ f
    ∧ isCorrectLocation (t ++ "/" ++ m ++ "/" ++ c1 ++ "/" ++ c2 ++ "/" ++ f)
        (calculateNewPath (t ++ "/" ++ m ++ "/" ++ c1 ++ "/" ++ c2 ++ "/" ++ f) m ⟨c1, c2⟩)
      = true
    ∧ processFilePair env ⟨t ++ "/" ++ m ++ "/" ++ c1 ++ "/" ++ c2 ++ "/" ++ f, j, none, none⟩
        dryRun = ⟨[StoreOp.get j], [RecordType.skipped]⟩ := by
  have htype : extractTypeFromPath (t ++ "/" ++ m ++ "/" ++ c1 ++ "/" ++ c2 ++ "/" ++ f) = t := by
    rw [show (t ++ "/" ++ m ++ "/" ++ c1 ++ "/" ++ c2 ++ "/" ++ f)
        = (⟨t.data ++ '/' :: (m.data ++ '/' :: (c1.data ++ '/' :: (c2.data ++ '/' :: f.data)))⟩ :
            String) from String.ext (by simp [String.data_append])]
    exact extractTypeFromPath_join t _ ht htn
  have hcalc : calculateNewPath (t ++ "/" ++ m ++ "/" ++ c1 ++ "/" ++ c2 ++ "/" ++ f) m ⟨c1, c2⟩
      = t ++ "/" ++ m ++ "/" ++ c1 ++ "/" ++ c2 ++ "/" ++ f := by
    simp only [calculateNewPath, htype, pathSegs_join5 t m c1 c2 f htn hm hc1n hc2n hfn,
      if_neg hc1, if_neg hc2]
    rfl
  have hKne : (t ++ "/" ++ m ++ "/" ++ c1 ++ "/" ++ c2 ++ "/" ++ f) ≠ "" := by
    intro h
    have := congrArg String.data h
    simp [String.data_append] at this
  have hcorrect : isCorrectLocation (t ++ "/" ++ m ++ "/" ++ c1 ++ "/" ++ c2 ++ "/" ++ f)
      (t ++ "/" ++ m ++ "/" ++ c1 ++ "/" ++ c2 ++ "/" ++ f) = true := by
    simp [isCorrectLocation, hKne]
  refine ⟨hcalc, by rw [hcalc]; exact hcorrect, ?_⟩
  unfold processFilePair
  rw [hfetch]
  dsimp only
  rw [hcat, hdate, hcalc, hcorrect]
  rfl

/-- C6 witness at the canonical key
`detection/2026-01/未分类/未分类/a.jpg`. -/
theorem calculateNewPath_idempotent_skip_witness :
    processFilePair envC6 pairC6 false = ⟨[StoreOp.get pairC6.jsonPath], [RecordType.skipped]⟩ :=
  (calculateNewPath_idempotent_skip "detection" "2026-01" "未分类" "未分类" "a.jpg"
    "detection/2026-01/未分类/未分类/a.json" envC6 mdEmpty false
    (by decide) (by decide) (by decide) (by decide) (by decide) (by decide) (by decide)
    (by decide) rfl (by decide) (by decide)).2.2

/-! ## Group lemmas for C4 -/

/-- Some group stored at key `C` has its `hasSpecific` flag set. -/
def SpecAt (gs : List (String × CatGroup)) (C : String) : Prop :=
  ∃ g, (C, g) ∈ gs ∧ g.hasSpecific = true

/-- Every category stored in a group carries that group's key as its
`category1`. -/
def WellKeyed (gs : List (String × CatGroup)) : Prop :=
  ∀ p ∈ gs, ∀ ci ∈ p.2.categories, ci.category1 = p.1

theorem upsertGroup_keys (gs : List (String × CatGroup)) (c1 : String) (ci : CategoryInfo)
    (sp : Bool) :
    (upsertGroup gs c1 ci sp).map Prod.fst =
      if c1 ∈ gs.map Prod.fst then gs.map Prod.fst else gs.map Prod.fst ++ [c1] := by
  induction gs with
  | nil => simp [upsertGroup]
  | cons kg rest ih =>
    obtain ⟨k, g⟩ := kg
    by_cases h : k = c1
    · subst h
      simp [upsertGroup]
    · simp only [upsertGroup, if_neg h, List.map_cons, ih]
      by_cases hmem : c1 ∈ rest.map Prod.fst
      · simp [hmem, Ne.symm h]
      · simp [hmem, Ne.symm h]

theorem upsertGroup_nodupKeys (gs : List (String × CatGroup)) (c1 : String) (ci : CategoryInfo)
    (sp : Bool) (h : (gs.map Prod.fst).Nodup) :
    ((upsertGroup gs c1 ci sp).map Prod.fst).Nodup := by
  rw [upsertGroup_keys]
  split
  · exact h
  · next hmem =>
    rw [List.nodup_append]
    refine ⟨h, List.nodup_singleton _, ?_⟩
    intro a ha hb
    rw [List.mem_singleton] at hb
    subst hb
    exact hmem ha

theorem buildGroups_nodupKeys_aux (results : List LabelCategoryResult)
    (gs : List (String × CatGroup)) (h : (gs.map Prod.fst).Nodup) :
    ((results.foldl groupStep gs).map Prod.fst).Nodup := by
  induction results generalizing gs with
  | nil => exact h
  | cons r rest ih =>
    show ((rest.foldl groupStep (groupStep gs r)).map Prod.fst).Nodup
    apply ih
    unfold groupStep
    cases r.category with
    | none => exact h
    | some ci => exact upsertGroup_nodupKeys _ _ _ _ h

theorem upsertGroup_specAt (gs : List (String × CatGroup)) (c1 : String) (ci : CategoryInfo)
    (sp : Bool) (C : String) (h : SpecAt gs C) : SpecAt (upsertGroup gs c1 ci sp) C := by
  induction gs with
  | nil => obtain ⟨g, hg, _⟩ := h; simp at hg
  | cons kg rest ih =>
    obtain ⟨k, g0⟩ := kg
    obtain ⟨g, hg, hspec⟩ := h
    rcases List.mem_cons.mp hg with heq | hmem
    · obtain ⟨hCk, hgg⟩ := Prod.mk.injEq .. ▸ heq
      by_cases hk : k = c1
      · subst hk
        refine ⟨⟨g0.hasSpecific || sp, g0.categories ++ [ci]⟩, ?_, ?_⟩
        · rw [hCk]
          simp [upsertGroup]
        · rw [hgg] at hspec
          simp [hspec]
      · refine ⟨g0, ?_, hgg ▸ hspec⟩
        rw [hCk]
        simp only [upsertGroup, if_neg hk]
        exact List.mem_cons_self _ _
    · by_cases hk : k = c1
      · subst hk
        refine ⟨g, ?_, hspec⟩
        simp only [upsertGroup, if_pos rfl]
        exact List.mem_cons_of_mem _ hmem
      · obtain ⟨g', hg', hs'⟩ := ih ⟨g, hmem, hspec⟩
        refine ⟨g', ?_, hs'⟩
        simp only [upsertGroup, if_neg hk]
        exact List.mem_cons_of_mem _ hg'

theorem upsertGroup_specAt_new (gs : List (String × CatGroup)) (ci : CategoryInfo) (C : String) :
    SpecAt (upsertGroup gs C ci true) C := by
  induction gs with
  | nil => exact ⟨⟨true, [ci]⟩, by simp [upsertGroup], rfl⟩
  | cons kg rest ih =>
    obtain ⟨k, g⟩ := kg
    by_cases hk : k = C
    · subst hk
      refine ⟨⟨g.hasSpecific || true, g.categories ++ [ci]⟩, ?_, by simp⟩
      simp only [upsertGroup, if_pos rfl]
      exact List.mem_cons_self _ _
    · obtain ⟨g', hg', hs'⟩ := ih
      refine ⟨g', ?_, hs'⟩
      simp only [upsertGroup, if_neg hk]
      exact List.mem_cons_of_mem _ hg'

theorem buildGroups_specAt_aux (results : List LabelCategoryResult) (C : String)
    (gs : List (String × CatGroup))
    (h : (∃ r ∈ results, r.source = LabelSource.csv ∧
          ∃ ci, r.category = some ci ∧ ci.category1 = C) ∨ SpecAt gs C) :
    SpecAt (results.foldl groupStep gs) C := by
  induction results generalizing gs with
  | nil =>
    rcases h with ⟨r, hr, _⟩ | h
    · simp at hr
    · exact h
  | cons r0 rest ih =>
    show SpecAt (rest.foldl groupStep (groupStep gs r0)) C
    rcases h with ⟨r, hr, hcsv, ci, hci, hC⟩ | hS
    · rcases List.mem_cons.mp hr with rfl | hmem
      · apply ih
        right
        unfold groupStep
        rw [hci, show (r.source == LabelSource.csv) = true from by simp [hcsv]]
        subst hC
        exact upsertGroup_specAt_new gs ci _
      · exact ih _ (Or.inl ⟨r, hmem, hcsv, ci, hci, hC⟩)
    · apply ih
      right
      unfold groupStep
      cases r0.category with
      | none => exact hS
      | some ci => exact upsertGroup_specAt gs ci.category1 ci _ C hS

theorem upsertGroup_wellKeyed (gs : List (String × CatGroup)) (c1 : String) (ci : CategoryInfo)
    (sp : Bool) (h : WellKeyed gs) (hci : ci.category1 = c1) :
    WellKeyed (upsertGroup gs c1 ci sp) := by
  induction gs with
  | nil =>
    intro p hp x hx
    simp only [upsertGroup, List.mem_singleton] at hp
    subst hp
    simp only [List.mem_singleton] at hx
    subst hx
    exact hci
  | cons kg rest ih =>
    obtain ⟨k, g⟩ := kg
    by_cases hk : k = c1
    · subst hk
      intro p hp x hx
      simp only [upsertGroup, if_pos rfl] at hp
      rcases List.mem_cons.mp hp with rfl | hmem
      · rcases List.mem_append.mp hx with hx | hx
        · exact h (k, g) (List.mem_cons_self _ _) x hx
        · rw [List.mem_singleton] at hx
          subst hx
          exact hci
      · exact h p (List.mem_cons_of_mem _ hmem) x hx
    · intro p hp x hx
      simp only [upsertGroup, if_neg hk] at hp
      rcases List.mem_cons.mp hp with rfl | hmem
      · exact h (k, g) (List.mem_cons_self _ _) x hx
      · exact ih (fun q hq => h q (List.mem_cons_of_mem _ hq)) p hmem x hx

theorem buildGroups_wellKeyed_aux (results : List LabelCategoryResult)
    (gs : List (String × CatGroup)) (h : WellKeyed gs) :
    WellKeyed (results.foldl groupStep gs) := by
  induction results generalizing gs with
  | nil => exact h
  | cons r rest ih =>
    show WellKeyed (rest.foldl groupStep (groupStep gs r))
    apply ih
    unfold groupStep
    cases r.category with
    | none => exact h
    | some ci => exact upsertGroup_wellKeyed gs ci.category1 ci _ h rfl

theorem nodupKeys_unique {gs : List (String × CatGroup)} (h : (gs.map Prod.fst).Nodup)
    {C : String} {g g' : CatGroup} (h1 : (C, g) ∈ gs) (h2 : (C, g') ∈ gs) : g = g' := by
  induction gs with
  | nil => simp at h1
  | cons kg rest ih =>
    rw [List.map_cons, List.nodup_cons] at h
    rcases List.mem_cons.mp h1 with heq1 | hm1 <;> rcases List.mem_cons.mp h2 with heq2 | hm2
    · exact (Prod.ext_iff.mp (heq1.trans heq2.symm)).2
    · exfalso
      apply h.1
      rw [← heq1]
      show C ∈ List.map Prod.fst rest
      exact List.mem_map_of_mem Prod.fst hm2
    · exfalso
      apply h.1
      rw [← heq2]
      show C ∈ List.map Prod.fst rest
      exact List.mem_map_of_mem Prod.fst hm1
    · exact ih h.2 hm1 hm2

theorem addCategory_mem (acc : List String × List CategoryInfo) (hasSpec : Bool)
    (ci x : CategoryInfo) (hx : x ∈ (addCategory acc hasSpec ci).2) :
    x ∈ acc.2 ∨ (x = ci ∧ ¬(ci.category2 = "未分类" ∧ hasSpec = true)) := by
  unfold addCategory at hx
  split at hx
  · exact Or.inl hx
  · next hskip =>
    split at hx
    · exact Or.inl hx
    · rcases List.mem_append.mp hx with h | h
      · exact Or.inl h
      · rw [List.mem_singleton] at h
        subst h
        refine Or.inr ⟨rfl, ?_⟩
        rintro ⟨hc2, hs⟩
        exact hskip (by simp [hc2, hs])

theorem foldl_addCategory_mem (cats : List CategoryInfo) (hasSpec : Bool)
    (acc : List String × List CategoryInfo) (x : CategoryInfo)
    (hx : x ∈ (cats.foldl (fun a ci => addCategory a hasSpec ci) acc).2) :
    x ∈ acc.2 ∨ (x ∈ cats ∧ ¬(x.category2 = "未分类" ∧ hasSpec = true)) := by
  induction cats generalizing acc with
  | nil => exact Or.inl hx
  | cons c rest ih =>
    rcases ih _ hx with h | ⟨hmem, hnot⟩
    · rcases addCategory_mem _ _ _ _ h with h' | ⟨rfl, hnot⟩
      · exact Or.inl h'
      · exact Or.inr ⟨List.mem_cons_self _ _, hnot⟩
    · exact Or.inr ⟨List.mem_cons_of_mem _ hmem, hnot⟩

theorem foldl_groups_mem (groups : List (String × CatGroup))
    (acc : List String × List CategoryInfo) (x : CategoryInfo)
    (hx : x ∈ (groups.foldl
      (fun acc kg => kg.2.categories.foldl (fun a ci => addCategory a kg.2.hasSpecific ci) acc)
      acc).2) :
    x ∈ acc.2 ∨ ∃ kg ∈ groups, x ∈ kg.2.categories ∧
      ¬(x.category2 = "未分类" ∧ kg.2.hasSpecific = true) := by
  induction groups generalizing acc with
  | nil => exact Or.inl hx
  | cons kg rest ih =>
    rcases ih _ hx with h | ⟨kg', hkg', hx', hnot⟩
    · rcases foldl_addCategory_mem _ _ _ _ h with h' | ⟨hmem, hnot⟩
      · exact Or.inl h'
      · exact Or.inr ⟨kg, List.mem_cons_self _ _, hmem, hnot⟩
    · exact Or.inr ⟨kg', List.mem_cons_of_mem _ hkg', hx', hnot⟩

/-! ## C4 -/

/-- C4: whenever some label resolves through the category table (source
`csv`) to a category with `category1 = C`, the resolver's output
contains no entry `{C, 未分类}` — the prefix-fallback placeholder for
that `category1` is suppressed; and at the specification's concrete
table, `resolve(["021_gt_hd_xs", "021_unknown_foo"])` is exactly the
specific entry `{设备-输电, 杆塔}`. -/
theorem csv_suppresses_prefix_placeholder :
    (∀ (table : String → Option CategoryInfo) (labels : List String) (C : String),
      (∃ l ∈ labels, ∃ ci, table l = some ci ∧ ci.category1 = C) →
      (⟨C, "未分类"⟩ : CategoryInfo) ∉ getCategoriesFromLabels table labels)
    ∧ getCategoriesFromLabels demoTable ["021_gt_hd_xs", "021_unknown_foo"]
        = [⟨"设备-输电", "杆塔"⟩] := by
  refine ⟨?_, by decide⟩
  intro table labels C h hmem
  obtain ⟨l, hl, ci, hci, hC⟩ := h
  have hne : labels ≠ [] := by rintro rfl; simp at hl
  rw [getCategoriesFromLabels, if_neg hne] at hmem
  have hr : ∃ r ∈ labels.map (categorizeLabelWithSource table),
      r.source = LabelSource.csv ∧ ∃ ci', r.category = some ci' ∧ ci'.category1 = C := by
    refine ⟨categorizeLabelWithSource table l, List.mem_map_of_mem _ hl, ?_, ci, ?_, hC⟩
    · simp [categorizeLabelWithSource, hci]
    · simp [categorizeLabelWithSource, hci]
  have hnotall : ¬ ((labels.map (categorizeLabelWithSource table)).all
      (fun r => r.source == LabelSource.unknown) = true) := by
    intro hall
    rw [List.all_eq_true] at hall
    obtain ⟨r, hrm, hcsv, _⟩ := hr
    have := hall r hrm
    rw [hcsv] at this
    simp at this
  rw [filterCategoriesByRules] at hmem
  rw [if_neg hnotall] at hmem
  rcases foldl_groups_mem (buildGroups (labels.map (categorizeLabelWithSource table)))
      ([], []) _ hmem with h0 | ⟨kg, hkg, hxmem, hnot⟩
  · simp at h0
  · have hwk : WellKeyed (buildGroups (labels.map (categorizeLabelWithSource table))) :=
      buildGroups_wellKeyed_aux _ [] (by intro p hp; simp at hp)
    have hCk : C = kg.1 := hwk kg hkg _ hxmem
    obtain ⟨g, hgmem, hgspec⟩ :=
      buildGroups_specAt_aux (labels.map (categorizeLabelWithSource table)) C [] (Or.inl hr)
    have hnd := buildGroups_nodupKeys_aux (labels.map (categorizeLabelWithSource table)) []
      (by simp)
    have hkg' : (C, kg.2) ∈ buildGroups (labels.map (categorizeLabelWithSource table)) := by
      rw [hCk]
      exact hkg
    have heq : kg.2 = g := nodupKeys_unique hnd hkg' hgmem
    exact hnot ⟨rfl, by rw [heq]; exact hgspec⟩

/-- C4 witness at the specification's concrete table and label list. -/
theorem csv_suppresses_prefix_placeholder_witness :
    (⟨"设备-输电", "未分类"⟩ : CategoryInfo) ∉
      getCategoriesFromLabels demoTable ["021_gt_hd_xs", "021_unknown_foo"] :=
  csv_suppresses_prefix_placeholder.1 demoTable ["021_gt_hd_xs", "021_unknown_foo"] "设备-输电"
    ⟨"021_gt_hd_xs", by decide, ⟨"设备-输电", "杆塔"⟩, by decide, rfl⟩
